import Mathlib

/-!
Verification of the ginPrismaApp media-streaming and rate-limiting core.

The definitions below are a shallow embedding of the Go sources:
  * `parseRange`, `finalCheck`   — services/stream.go, `parseRange` (lines 28-79)
  * `Stream`, `ReadBuffer`, `Streaming.get`, `getObject`
                                 — services/stream.go (lines 111-205)
  * `UploadVideo`                — services/upload.go (lines 13-54)
  * `RateLimiter`, `GetLimiter`, `sweepRegistry`, `RateLimitMiddleware`,
    `StrictRateLimitMiddleware`  — the router rate-limiting file
Strings are embedded as `List Char`; Go `int64` is embedded as `Int` with the
explicit bounds `int64Min`/`int64Max` where `strconv.ParseInt` checks them;
byte streams are `List Nat`; the float-valued token counts of the limiter are
embedded as rationals.
-/

/-- The literal prefix `bytes=` that a Range header must carry
(services/stream.go line 29). -/
def bytesMarker : List Char := ['b', 'y', 't', 'e', 's', '=']

/-- Numeric value of a decimal digit character, `c - '0'`. -/
def digitVal (c : Char) : Nat := c.toNat - 48

/-- Value of a decimal digit string, most significant digit first: the
accumulation loop of Go `strconv.ParseInt` in base 10. -/
def digitsVal (l : List Char) : Nat :=
  l.foldl (fun acc c => acc * 10 + digitVal c) 0

/-- Largest `int64` value, 2^63 - 1. -/
def int64Max : Int := 2 ^ 63 - 1

/-- Smallest `int64` value, -2^63. -/
def int64Min : Int := -(2 ^ 63)

/-- Go `strconv.ParseInt(s, 10, 64)`: an optional sign followed by at least
one decimal digit, the value required to fit in `int64`. -/
def parseInt64 (s : List Char) : Except Unit Int :=
  if s = [] then .error ()
  else
    let c := s.headD ' '
    let signDigits : Int × List Char :=
      if c = '+' then (1, s.tail)
      else if c = '-' then (-1, s.tail)
      else (1, s)
    if signDigits.2 = [] then .error ()
    else if signDigits.2.all (fun d => d.isDigit) then
      let v : Int := signDigits.1 * (digitsVal signDigits.2 : Int)
      if v < int64Min ∨ int64Max < v then .error () else .ok v
    else .error ()

/-- Go `strings.Split` for a single-character separator: splits around every
occurrence of `sep`, keeping empty fields. -/
def goSplit (sep : Char) : List Char → List (List Char)
  | [] => [[]]
  | c :: rest =>
    match goSplit sep rest with
    | [] => [[]]
    | g :: gs => if c = sep then [] :: g :: gs else (c :: g) :: gs

/-- Final validation of services/stream.go lines 74-76:
`start > end || start < 0 || end >= fileSize` rejects the range. -/
def finalCheck (start e fileSize : Int) : Except Unit (Int × Int) :=
  if e < start ∨ start < 0 ∨ fileSize ≤ e then .error () else .ok (start, e)

/-- services/stream.go `parseRange` (lines 28-79): validates the `bytes=`
marker, rejects multiple ranges, splits on `-`, handles the suffix form
`bytes=-N` (clamping `N` to the file size), the bounded form `bytes=N-M`
(clamping `M` to `fileSize - 1`) and the open form `bytes=N-`, and finally
validates the resulting interval. -/
def parseRange (rangeHeader : List Char) (fileSize : Int) :
    Except Unit (Int × Int) :=
  if List.isPrefixOf bytesMarker rangeHeader = false then .error ()
  else
    let rangeSpec := rangeHeader.drop 6
    if rangeSpec.contains ',' then .error ()
    else
      let parts := goSplit '-' rangeSpec
      if parts.length ≠ 2 then .error ()
      else
        let p0 := parts.headD []
        let p1 := (parts.drop 1).headD []
        if p0 = [] then
          match parseInt64 p1 with
          | .error _ => .error ()
          | .ok suffixLength =>
            let suffixLength :=
              if fileSize < suffixLength then fileSize else suffixLength
            finalCheck (fileSize - suffixLength) (fileSize - 1) fileSize
        else
          match parseInt64 p0 with
          | .error _ => .error ()
          | .ok start =>
            if p1 ≠ [] then
              match parseInt64 p1 with
              | .error _ => .error ()
              | .ok e =>
                finalCheck start (if fileSize ≤ e then fileSize - 1 else e)
                  fileSize
            else
              finalCheck start (fileSize - 1) fileSize

/-- Fuel-driven decimal rendering of a natural number, most significant digit
first (the usual base-10 numeral, structurally recursive so that the kernel
can evaluate it). -/
def natToCharsCore : Nat → Nat → List Char → List Char
  | 0, _, acc => acc
  | fuel + 1, n, acc =>
    if n < 10 then Char.ofNat (48 + n % 10) :: acc
    else natToCharsCore fuel (n / 10) (Char.ofNat (48 + n % 10) :: acc)

/-- Decimal numeral of a natural number as a character list. -/
def natToChars (n : Nat) : List Char := natToCharsCore (n + 1) n []

/-- Characterisation of `natToChars` through `Nat.digits`, used in proofs. -/
def natCharsSpec (n : Nat) : List Char :=
  if n = 0 then ['0']
  else (Nat.digits 10 n).reverse.map (fun d => Char.ofNat (48 + d))

theorem natToCharsCore_eq (fuel : Nat) :
    ∀ n acc, 1 ≤ n → n < 10 ^ fuel →
      natToCharsCore fuel n acc =
        (Nat.digits 10 n).reverse.map (fun d => Char.ofNat (48 + d)) ++ acc := by
  induction fuel with
  | zero => intro n acc h1 h2; simp at h2; omega
  | succ fuel ih =>
    intro n acc h1 h2
    by_cases hlt : n < 10
    · have hmod : n % 10 = n := Nat.mod_eq_of_lt hlt
      have hdig : Nat.digits 10 n = [n] := by
        rw [Nat.digits_def' (by norm_num : 1 < 10) (by omega : 0 < n)]
        rw [Nat.div_eq_of_lt hlt, Nat.digits_zero, hmod]
      simp [natToCharsCore, hlt, hdig, hmod]
    · have h10 : 10 ≤ n := by omega
      have hdiv1 : 1 ≤ n / 10 := (Nat.one_le_div_iff (by norm_num)).2 h10
      have hdivlt : n / 10 < 10 ^ fuel := by
        rw [Nat.div_lt_iff_lt_mul (by norm_num : 0 < 10)]
        calc n < 10 ^ (fuel + 1) := h2
          _ = 10 ^ fuel * 10 := by rw [pow_succ]
      have hdig : Nat.digits 10 n = n % 10 :: Nat.digits 10 (n / 10) :=
        Nat.digits_def' (by norm_num : 1 < 10) (by omega : 0 < n)
      simp only [natToCharsCore, if_neg (by omega : ¬ n < 10)]
      rw [ih (n / 10) _ hdiv1 hdivlt, hdig]
      simp

theorem natToChars_eq_spec (n : Nat) : natToChars n = natCharsSpec n := by
  by_cases h : n = 0
  · subst h; rfl
  · have h1 : 1 ≤ n := by omega
    have h2 : n < 10 ^ (n + 1) := by
      calc n < 2 ^ n := Nat.lt_two_pow n
        _ ≤ 10 ^ n := Nat.pow_le_pow_left (by norm_num) n
        _ ≤ 10 ^ (n + 1) := Nat.pow_le_pow_right (by norm_num) (Nat.le_succ n)
    unfold natToChars natCharsSpec
    rw [natToCharsCore_eq (n + 1) n [] h1 h2, if_neg h, List.append_nil]

theorem natToChars_mem (n : Nat) :
    ∀ c ∈ natToChars n, ∃ d, d < 10 ∧ c = Char.ofNat (48 + d) := by
  rw [natToChars_eq_spec]
  unfold natCharsSpec
  by_cases h : n = 0
  · simp [h]
    exact ⟨0, by norm_num, rfl⟩
  · intro c hc
    rw [if_neg h] at hc
    simp only [List.mem_map, List.mem_reverse] at hc
    obtain ⟨d, hd, rfl⟩ := hc
    exact ⟨d, Nat.digits_lt_base (by norm_num) hd, rfl⟩

theorem natToChars_ne_nil (n : Nat) : natToChars n ≠ [] := by
  rw [natToChars_eq_spec]
  unfold natCharsSpec
  by_cases h : n = 0
  · simp [h]
  · rw [if_neg h]
    simp [Nat.digits_ne_nil_iff_ne_zero.2 h]

theorem digitVal_ofNat : ∀ d < 10, digitVal (Char.ofNat (48 + d)) = d := by
  decide

theorem char_isDigit_ofNat : ∀ d < 10, (Char.ofNat (48 + d)).isDigit = true := by
  decide

theorem char_ofNat_ne_special :
    ∀ d < 10, Char.ofNat (48 + d) ≠ '+' ∧ Char.ofNat (48 + d) ≠ '-' ∧
      Char.ofNat (48 + d) ≠ ',' := by
  decide

theorem natToChars_all_digits (n : Nat) :
    (natToChars n).all (fun d => d.isDigit) = true := by
  rw [List.all_eq_true]
  intro c hc
  obtain ⟨d, hd10, rfl⟩ := natToChars_mem n c hc
  exact char_isDigit_ofNat d hd10

theorem natToChars_no_dash (n : Nat) : ∀ c ∈ natToChars n, c ≠ '-' := by
  intro c hc
  obtain ⟨d, hd10, rfl⟩ := natToChars_mem n c hc
  exact (char_ofNat_ne_special d hd10).2.1

theorem natToChars_no_comma (n : Nat) : ∀ c ∈ natToChars n, c ≠ ',' := by
  intro c hc
  obtain ⟨d, hd10, rfl⟩ := natToChars_mem n c hc
  exact (char_ofNat_ne_special d hd10).2.2

theorem foldl_digits_ofDigits (L : List Nat) :
    ∀ a : Nat, L.reverse.foldl (fun acc d => acc * 10 + d) a =
      a * 10 ^ L.length + Nat.ofDigits 10 L := by
  induction L with
  | nil => intro a; simp [Nat.ofDigits_nil]
  | cons d tl ih =>
    intro a
    simp only [List.reverse_cons, List.foldl_append, List.foldl_cons,
      List.foldl_nil, List.length_cons]
    rw [ih a, Nat.ofDigits_cons]
    ring

theorem digitsVal_natToChars (n : Nat) : digitsVal (natToChars n) = n := by
  rw [natToChars_eq_spec]
  unfold natCharsSpec
  by_cases h : n = 0
  · subst h; decide
  · rw [if_neg h]
    unfold digitsVal
    rw [List.foldl_map]
    rw [List.foldl_ext (fun acc c => acc * 10 + digitVal (Char.ofNat (48 + c)))
      (fun acc d => acc * 10 + d) 0 ?_]
    · rw [foldl_digits_ofDigits (Nat.digits 10 n) 0, Nat.ofDigits_digits]
      simp
    · intro a d hdm
      show a * 10 + digitVal (Char.ofNat (48 + d)) = a * 10 + d
      rw [digitVal_ofNat d
        (Nat.digits_lt_base (by norm_num) (List.mem_reverse.1 hdm))]

theorem parseInt64_natToChars (n : Nat) (h : (n : Int) ≤ int64Max) :
    parseInt64 (natToChars n) = .ok (n : Int) := by
  obtain ⟨c, rest, hcr⟩ : ∃ c rest, natToChars n = c :: rest := by
    cases hn : natToChars n with
    | nil => exact absurd hn (natToChars_ne_nil n)
    | cons c rest => exact ⟨c, rest, rfl⟩
  have hc : c ∈ natToChars n := by rw [hcr]; exact List.mem_cons_self _ _
  obtain ⟨d, hd10, hcd⟩ := natToChars_mem n c hc
  have hplus : c ≠ '+' := hcd ▸ (char_ofNat_ne_special d hd10).1
  have hminus : c ≠ '-' := hcd ▸ (char_ofNat_ne_special d hd10).2.1
  have hall : (c :: rest).all (fun d => d.isDigit) = true := by
    rw [← hcr]; exact natToChars_all_digits n
  have hval : digitsVal (c :: rest) = n := by
    rw [← hcr]; exact digitsVal_natToChars n
  have hne : (c :: rest : List Char) ≠ [] := by simp
  have hbound : ¬ ((n : Int) < int64Min ∨ int64Max < (n : Int)) := by
    push_neg
    refine ⟨?_, h⟩
    have : (0 : Int) ≤ (n : Int) := Int.ofNat_nonneg n
    unfold int64Min
    omega
  rw [hcr]
  unfold parseInt64
  rw [if_neg hne]
  simp only [List.headD_cons, List.tail_cons, if_neg hplus, if_neg hminus,
    if_neg hne, hall, if_true, hval, one_mul]
  rw [if_neg hbound]


theorem isPrefixOf_append_self (A rest : List Char) :
    List.isPrefixOf A (A ++ rest) = true := by
  induction A with
  | nil => simp [List.isPrefixOf]
  | cons a A' ih => simp [List.isPrefixOf, ih]

theorem contains_eq_false_of_not_mem (l : List Char) (a : Char) (h : a ∉ l) :
    l.contains a = false := by
  rw [Bool.eq_false_iff]
  intro hc
  exact h (List.mem_of_elem_eq_true hc)

theorem goSplit_cons (sep c : Char) (rest : List Char) :
    goSplit sep (c :: rest) =
      match goSplit sep rest with
      | [] => [[]]
      | g :: gs => if c = sep then [] :: g :: gs else (c :: g) :: gs := rfl

theorem goSplit_ne_nil (sep : Char) (l : List Char) : goSplit sep l ≠ [] := by
  induction l with
  | nil => simp [goSplit]
  | cons c rest ih =>
    rw [goSplit_cons]
    cases hg : goSplit sep rest with
    | nil => simp
    | cons g gs => by_cases hc : c = sep <;> simp [hc]

theorem goSplit_no_sep (sep : Char) (l : List Char) (h : ∀ c ∈ l, c ≠ sep) :
    goSplit sep l = [l] := by
  induction l with
  | nil => rfl
  | cons c rest ih =>
    have hc : c ≠ sep := h c (List.mem_cons_self _ _)
    have ih' := ih (fun x hx => h x (List.mem_cons_of_mem _ hx))
    rw [goSplit_cons, ih']
    simp [hc]

theorem goSplit_append (sep : Char) (A B : List Char) (h : ∀ c ∈ A, c ≠ sep) :
    goSplit sep (A ++ sep :: B) = A :: goSplit sep B := by
  induction A with
  | nil =>
    rw [List.nil_append, goSplit_cons]
    cases hg : goSplit sep B with
    | nil => exact absurd hg (goSplit_ne_nil sep B)
    | cons g gs => simp
  | cons a A' ih =>
    have ha : a ≠ sep := h a (List.mem_cons_self _ _)
    have ih' := ih (fun x hx => h x (List.mem_cons_of_mem _ hx))
    rw [List.cons_append, goSplit_cons, ih']
    simp [ha]

theorem parseRange_two_parts (s e : Nat) (fileSize : Int)
    (hs : (s : Int) ≤ int64Max) (he : (e : Int) ≤ int64Max) :
    parseRange (bytesMarker ++ (natToChars s ++ '-' :: natToChars e)) fileSize =
      finalCheck (s : Int) (if fileSize ≤ (e : Int) then fileSize - 1 else (e : Int))
        fileSize := by
  have hdrop : List.drop 6 (bytesMarker ++ (natToChars s ++ '-' :: natToChars e)) =
      natToChars s ++ '-' :: natToChars e :=
    List.drop_left bytesMarker _
  have hcomma : (natToChars s ++ '-' :: natToChars e).contains ',' = false := by
    apply contains_eq_false_of_not_mem
    simp only [List.mem_append, List.mem_cons]
    rintro (hm | hm | hm)
    · exact natToChars_no_comma s ',' hm rfl
    · exact absurd hm.symm (by decide)
    · exact natToChars_no_comma e ',' hm rfl
  have hsplit : goSplit '-' (natToChars s ++ '-' :: natToChars e) =
      [natToChars s, natToChars e] := by
    rw [goSplit_append '-' _ _ (natToChars_no_dash s),
      goSplit_no_sep '-' _ (natToChars_no_dash e)]
  unfold parseRange
  rw [isPrefixOf_append_self]
  simp only [Bool.true_eq_false, if_false]
  rw [hdrop, hcomma]
  simp only [Bool.false_eq_true, if_false]
  rw [hsplit]
  simp only [List.length_cons, List.length_nil, List.headD_cons, List.drop_succ_cons,
    List.drop_zero]
  rw [if_neg (by omega : ¬ (0 + 1 + 1 ≠ 2))]
  rw [if_neg (natToChars_ne_nil s)]
  simp only [parseInt64_natToChars s hs, parseInt64_natToChars e he, ne_eq,
    natToChars_ne_nil e, not_false_eq_true, if_true]

theorem parseRange_suffix_form (N : Nat) (fileSize : Int)
    (hN : (N : Int) ≤ int64Max) :
    parseRange (bytesMarker ++ '-' :: natToChars N) fileSize =
      finalCheck (fileSize - (if fileSize < (N : Int) then fileSize else (N : Int)))
        (fileSize - 1) fileSize := by
  have hdrop : List.drop 6 (bytesMarker ++ '-' :: natToChars N) =
      '-' :: natToChars N :=
    List.drop_left bytesMarker _
  have hcomma : (('-' :: natToChars N : List Char)).contains ',' = false := by
    apply contains_eq_false_of_not_mem
    simp only [List.mem_cons]
    rintro (hm | hm)
    · exact absurd hm.symm (by decide)
    · exact natToChars_no_comma N ',' hm rfl
  have hsplit : goSplit '-' ('-' :: natToChars N) = [[], natToChars N] := by
    have h0 := goSplit_append '-' [] (natToChars N) (by simp)
    rw [List.nil_append] at h0
    rw [h0, goSplit_no_sep '-' _ (natToChars_no_dash N)]
  unfold parseRange
  rw [isPrefixOf_append_self]
  simp only [Bool.true_eq_false, if_false]
  rw [hdrop, hcomma]
  simp only [Bool.false_eq_true, if_false]
  rw [hsplit]
  simp only [List.length_cons, List.length_nil, List.headD_cons, List.drop_succ_cons,
    List.drop_zero]
  rw [if_neg (by omega : ¬ (0 + 1 + 1 ≠ 2))]
  simp only [if_true, parseInt64_natToChars N hN]

theorem finalCheck_nonpos (s e sz : Int) (h : sz ≤ 0) :
    finalCheck s e sz = .error () := by
  unfold finalCheck
  rw [if_pos]
  omega

/-- Claim C4: for every triple with `0 <= start <= end < size` (sizes being
`int64` values), parsing the header `bytes={start}-{end}` against object size
`size` succeeds and returns exactly the interval `(start, end)`. -/
theorem parseRange_bounded_roundtrip (s e sz : Nat) (h1 : s ≤ e) (h2 : e < sz)
    (h3 : (sz : Int) ≤ int64Max) :
    parseRange (bytesMarker ++ (natToChars s ++ '-' :: natToChars e)) (sz : Int) =
      .ok ((s : Int), (e : Int)) := by
  have hse : (s : Int) ≤ (sz : Int) := by exact_mod_cast (h1.trans h2.le)
  have hes : (e : Int) < (sz : Int) := by exact_mod_cast h2
  have hs : (s : Int) ≤ int64Max := le_trans hse h3
  have he : (e : Int) ≤ int64Max := le_trans hes.le h3
  rw [parseRange_two_parts s e _ hs he]
  rw [if_neg (not_le.2 hes)]
  unfold finalCheck
  rw [if_neg]
  push_neg
  have hse' : (s : Int) ≤ (e : Int) := by exact_mod_cast h1
  exact ⟨hse', by positivity, hes⟩

/-- Witness for claim C4 at `start = 3`, `end = 7`, `size = 10`:
`parse("bytes=3-7", 10) = ok (3, 7)`. -/
theorem parseRange_bounded_roundtrip_witness :
    parseRange (bytesMarker ++ (natToChars 3 ++ '-' :: natToChars 7)) 10 =
      .ok (3, 7) := by
  have h := parseRange_bounded_roundtrip 3 7 10 (by decide) (by decide)
    (by unfold int64Max; omega)
  exact_mod_cast h

/-- Counterexample to claim C5 as stated: the suffix form does not succeed for
every `N` and every size.  At `N = 0` the parsed interval is
`[size, size-1]` and the final validation rejects it; at `size = 0` every
range is rejected; at `N = 2^63` Go `strconv.ParseInt` overflows. -/
theorem parseRange_suffix_claim_counterexample :
    parseRange (bytesMarker ++ '-' :: natToChars 0) 10 = .error () ∧
    parseRange (bytesMarker ++ '-' :: natToChars 5) 0 = .error () ∧
    parseRange (bytesMarker ++ '-' :: natToChars 9223372036854775808) 10 =
      .error () := by
  refine ⟨rfl, rfl, rfl⟩

/-- Claim C5 (amended): for every `N` with `1 <= N <= int64Max` and every
object size `size >= 1`, parsing `bytes=-N` against `size` succeeds and
returns `(size - min(N, size), size - 1)`, `N` being clamped to the object
size when it exceeds it. -/
theorem parseRange_suffix_clamped (N sz : Nat) (h1 : 1 ≤ N)
    (h2 : (N : Int) ≤ int64Max) (h3 : 1 ≤ sz) :
    parseRange (bytesMarker ++ '-' :: natToChars N) (sz : Int) =
      .ok ((sz : Int) - min (N : Int) (sz : Int), (sz : Int) - 1) := by
  rw [parseRange_suffix_form N _ h2]
  have h1' : (1 : Int) ≤ (N : Int) := by exact_mod_cast h1
  have h3' : (1 : Int) ≤ (sz : Int) := by exact_mod_cast h3
  have hmin : (if (sz : Int) < (N : Int) then (sz : Int) else (N : Int)) =
      min (N : Int) (sz : Int) := by
    split <;> omega
  rw [hmin]
  unfold finalCheck
  rw [if_neg]
  push_neg
  refine ⟨by omega, by omega, by omega⟩

/-- Witness for claim C5 (amended) at `N = 2`, `size = 10`:
`parse("bytes=-2", 10) = ok (8, 9)`. -/
theorem parseRange_suffix_clamped_witness :
    parseRange (bytesMarker ++ '-' :: natToChars 2) 10 = .ok (8, 9) := by
  have h := parseRange_suffix_clamped 2 10 (by decide)
    (by unfold int64Max; omega) (by decide)
  norm_num at h
  exact_mod_cast h

/-- Claim C10: against an object of size 0 the range parser rejects every
Range header, since the final validation `start <= end < objectSize` is
unsatisfiable for `objectSize = 0`. -/
theorem parseRange_size_zero_rejects (header : List Char) :
    parseRange header 0 = .error () := by
  unfold parseRange
  repeat' first
    | rfl
    | exact finalCheck_nonpos _ _ 0 le_rfl
    | split
    | dsimp only

/-- The object store as consumed by the streaming service: a mapping from
object names to byte contents.  A failing `StatObject` and an absent object
coincide in this model. -/
structure Store where
  objects : String → Option (List Nat)

/-- minio `GetObjectOptions`: only the byte range matters to this core;
`SetRange(start, end)` requests the inclusive interval. -/
structure GetObjectOptions where
  range : Option (Int × Int) := none

/-- minio `GetObjectOptions.SetRange`. -/
def GetObjectOptions.setRange (opts : GetObjectOptions) (start e : Int) :
    GetObjectOptions :=
  { opts with range := some (start, e) }

/-- minio `GetObject`: the object's bytes, restricted to the requested
inclusive range when one was set in the options. -/
def getObject (store : Store) (name : String) (opts : GetObjectOptions) :
    Option (List Nat) :=
  (store.objects name).map fun content =>
    match opts.range with
    | none => content
    | some (s, e) => (content.drop s.toNat).take (e - s + 1).toNat

/-- services/stream.go `Get` (lines 120-128): opens the object with EMPTY
`GetObjectOptions{}` — it never takes a range. -/
def Streaming.get (store : Store) (name : String) : Option (List Nat) :=
  getObject store name {}

/-- services/stream.go `GetObjectInfo` (lines 111-118): minio `StatObject`,
yielding the object's size on success. -/
def Streaming.getObjectInfo (store : Store) (name : String) : Option Int :=
  (store.objects name).map fun content => (content.length : Int)

/-- The chunk size of the read loop, 1 MiB (services/stream.go line 21). -/
def defaultBufferSize : Nat := 1024 * 1024

/-- The read/write loop of `ReadBuffer` (services/stream.go lines 183-200):
reads the opened stream in `defaultBufferSize` chunks and writes each chunk
to the response until EOF; the fuel argument bounds the iterations. -/
def pumpChunksCore : Nat → List Nat → List Nat
  | 0, _ => []
  | _, [] => []
  | fuel + 1, data =>
    data.take defaultBufferSize ++ pumpChunksCore fuel (data.drop defaultBufferSize)

/-- The bytes the read/write loop writes for a given opened stream. -/
def pumpChunks (data : List Nat) : List Nat :=
  pumpChunksCore (data.length + 1) data

/-- services/stream.go `ReadBuffer` (lines 177-201).  Faithful to the source:
`getOpts` is built and `SetRange(start, end)` is called on it, but the object
is then opened through `Streaming.get`, which uses fresh empty options, so
the configured range never reaches the store. -/
def ReadBuffer (store : Store) (objectName : String) (start e : Int) :
    List Nat :=
  let getOpts : GetObjectOptions := {}
  let getOpts := getOpts.setRange start e
  match Streaming.get store objectName with
  | none => []
  | some data => pumpChunks data

/-- The observable response of the streaming handler: status code, the
Content-Length and Content-Range headers, and the object bytes written to
the body.  Error messages written by `http.Error` are not object bytes and
are not modelled as body content. -/
structure HttpResponse where
  status : Nat
  contentLength : Option Int := none
  contentRange : Option (Int × Int × Int) := none
  body : List Nat := []

/-- services/stream.go `Stream` (lines 129-175): 400 for a missing
`objectName`, 500 when stat fails, 200 with the whole object when no Range
header is present, 400 on a bad Range header, and otherwise 206 with
`Content-Range: bytes start-end/size`, `Content-Length = end-start+1` and the
bytes produced by `ReadBuffer`. -/
def Streaming.Stream (store : Store) (objectName : String)
    (rangeHeader : List Char) : HttpResponse :=
  if objectName = "" then
    { status := 400 }
  else
    match Streaming.getObjectInfo store objectName with
    | none => { status := 500 }
    | some fileSize =>
      if rangeHeader = [] then
        { status := 200
          contentLength := some fileSize
          body := (Streaming.get store objectName).getD [] }
      else
        match parseRange rangeHeader fileSize with
        | .error _ => { status := 400 }
        | .ok (start, e) =>
          { status := 206
            contentLength := some (e - start + 1)
            contentRange := some (start, e, fileSize)
            body := ReadBuffer store objectName start e }

/-- A concrete store holding one 4-byte object named `v`. -/
def demoStore : Store :=
  { objects := fun name => if name = "v" then some [10, 20, 30, 40] else none }

theorem pumpChunksCore_eq (fuel : Nat) :
    ∀ data : List Nat, data.length ≤ fuel → pumpChunksCore fuel data = data := by
  induction fuel with
  | zero =>
    intro data h
    have : data = [] := List.eq_nil_of_length_eq_zero (by omega)
    subst this
    rfl
  | succ fuel ih =>
    intro data h
    cases data with
    | nil => rfl
    | cons a rest =>
      have hlen : ((a :: rest).drop defaultBufferSize).length ≤ fuel := by
        rw [List.length_drop]
        simp only [List.length_cons] at h ⊢
        unfold defaultBufferSize
        omega
      simp only [pumpChunksCore]
      rw [ih _ hlen, List.take_append_drop]

theorem pumpChunks_eq (data : List Nat) : pumpChunks data = data := by
  unfold pumpChunks
  exact pumpChunksCore_eq (data.length + 1) data (Nat.le_succ _)

/-- Claim C1 (code bug): streaming the 4-byte object `v` with header
`Range: bytes=1-2` yields status 206 and the claimed headers
(`Content-Range: bytes 1-2/4`, `Content-Length = 2`), but the body written
is the WHOLE object `[10, 20, 30, 40]`, not the requested interval:
`ReadBuffer` calls `SetRange(start, end)` on a local options value and then
opens the object through `Get`, which passes empty options, so the range
never reaches the store.  Reading the same interval from the source object
directly yields `[20, 30]`. -/
theorem stream_range_bug :
    (Streaming.Stream demoStore "v"
      (bytesMarker ++ (natToChars 1 ++ '-' :: natToChars 2))).status = 206 ∧
    (Streaming.Stream demoStore "v"
      (bytesMarker ++ (natToChars 1 ++ '-' :: natToChars 2))).contentRange =
        some (1, 2, 4) ∧
    (Streaming.Stream demoStore "v"
      (bytesMarker ++ (natToChars 1 ++ '-' :: natToChars 2))).contentLength =
        some 2 ∧
    (Streaming.Stream demoStore "v"
      (bytesMarker ++ (natToChars 1 ++ '-' :: natToChars 2))).body =
        [10, 20, 30, 40] ∧
    getObject demoStore "v" (GetObjectOptions.setRange {} 1 2) =
        some [20, 30] ∧
    (Streaming.Stream demoStore "v"
      (bytesMarker ++ (natToChars 1 ++ '-' :: natToChars 2))).body ≠
        [20, 30] :=
  ⟨rfl, rfl, rfl, rfl, rfl, by decide⟩

/-- Counterexample to claim C2 as stated: the Stream operation does not
answer 404 in these cases — an empty `objectName` is answered with 400 and a
failing stat with 500. -/
theorem stream_notfound_counterexample :
    (Streaming.Stream demoStore "" []).status = 400 ∧
    (Streaming.Stream demoStore "" []).status ≠ 404 ∧
    (Streaming.Stream demoStore "nope" []).status = 500 ∧
    (Streaming.Stream demoStore "nope" []).status ≠ 404 :=
  ⟨rfl, by decide, rfl, by decide⟩

/-- Claim C2 (amended): the Stream operation rejects with BadRequest (400)
when `objectName` is empty and with InternalServerError (500) when the
store's stat fails, and in both cases no object bytes are written to the
response body. -/
theorem stream_reject_writes_no_bytes (store : Store) (name : String)
    (rh : List Char) :
    (name = "" → (Streaming.Stream store name rh).status = 400 ∧
      (Streaming.Stream store name rh).body = []) ∧
    (name ≠ "" → store.objects name = none →
      (Streaming.Stream store name rh).status = 500 ∧
      (Streaming.Stream store name rh).body = []) := by
  constructor
  · intro h
    subst h
    exact ⟨rfl, rfl⟩
  · intro h hnone
    have hstat : Streaming.getObjectInfo store name = none := by
      unfold Streaming.getObjectInfo
      rw [hnone]
      rfl
    unfold Streaming.Stream
    rw [if_neg h, hstat]
    exact ⟨rfl, rfl⟩

/-- Witness for claim C2 (amended): concrete instances on `demoStore` with
an empty name and with the absent object `nope`. -/
theorem stream_reject_writes_no_bytes_witness :
    ((Streaming.Stream demoStore "" []).status = 400 ∧
      (Streaming.Stream demoStore "" []).body = []) ∧
    ((Streaming.Stream demoStore "nope" []).status = 500 ∧
      (Streaming.Stream demoStore "nope" []).body = []) :=
  ⟨(stream_reject_writes_no_bytes demoStore "" []).1 rfl,
   (stream_reject_writes_no_bytes demoStore "nope" []).2 (by decide) rfl⟩

/-- The 100 MiB upload cap, `100<<20` (services/upload.go line 15). -/
def maxUploadBytes : Nat := 100 <<< 20

/-- An inbound multipart upload request as the handler sees it: the total
body size, whether the form carries a `file` field, and that field's
contents. -/
structure UploadRequest where
  bodySize : Nat
  hasFile : Bool
  filename : String
  fileContent : List Nat
  contentType : String

/-- The observable result of the upload handler: the HTTP status and whether
the store's put operation was invoked. -/
structure UploadResponse where
  status : Nat
  putCalled : Bool

/-- minio `PutObject`: stores the content under the given name. -/
def putObject (store : Store) (name : String) (content : List Nat) : Store :=
  { objects := fun k => if k = name then some content else store.objects k }

/-- services/upload.go `UploadVideo` (lines 13-54): the request body is
wrapped in `http.MaxBytesReader` with the 100 MiB cap, so `FormFile` fails —
and the handler answers 400 ("failed to read file") — whenever the body
exceeds the cap or the `file` field is missing; otherwise the file is handed
to the store's put operation and the handler answers 200. -/
def UploadVideo (store : Store) (req : UploadRequest) :
    UploadResponse × Store :=
  if maxUploadBytes < req.bodySize || !req.hasFile then
    ({ status := 400, putCalled := false }, store)
  else
    ({ status := 200, putCalled := true },
      putObject store req.filename req.fileContent)

/-- A request one byte over the 100 MiB cap. -/
def oversizedReq : UploadRequest :=
  { bodySize := maxUploadBytes + 1, hasFile := true, filename := "big.mp4",
    fileContent := [1], contentType := "video/mp4" }

/-- Counterexample to claim C3 as stated: an upload whose body exceeds the
cap is answered with status 400 (the handler returns BadRequest on the
`FormFile` error produced by `MaxBytesReader`), not 413 PayloadTooLarge. -/
theorem upload_too_large_counterexample :
    (UploadVideo demoStore oversizedReq).1.status = 400 ∧
    (UploadVideo demoStore oversizedReq).1.status ≠ 413 :=
  ⟨rfl, by decide⟩

/-- Claim C3 (amended): every upload whose body exceeds the 100 MiB cap is
rejected — with status 400, not 413 — before the store's put operation is
invoked, so no data is persisted and the store is unchanged. -/
theorem upload_over_cap_rejected (store : Store) (req : UploadRequest)
    (h : maxUploadBytes < req.bodySize) :
    (UploadVideo store req).1.status = 400 ∧
    (UploadVideo store req).1.putCalled = false ∧
    (UploadVideo store req).2 = store := by
  unfold UploadVideo
  rw [if_pos]
  · exact ⟨rfl, rfl, rfl⟩
  · simp [h]

/-- Witness for claim C3 (amended) at the concrete oversized request. -/
theorem upload_over_cap_rejected_witness :
    (UploadVideo demoStore oversizedReq).1.status = 400 ∧
    (UploadVideo demoStore oversizedReq).1.putCalled = false ∧
    (UploadVideo demoStore oversizedReq).2 = demoStore :=
  upload_over_cap_rejected demoStore oversizedReq (by decide)

/-- Modelled from the spec: the token bucket owned by `rate.NewLimiter`
(golang.org/x/time/rate is not part of the sources under verification).
Spec section 3: `{capacity (burst), refillRatePerSecond, tokens,
lastRefill}`; token counts and timestamps, floats in the spec, are embedded
as rationals. -/
structure TokenBucket where
  capacity : Nat
  refillRate : ℚ
  tokens : ℚ
  lastRefill : ℚ

/-- Modelled from the spec (section 4.3) and x/time/rate `Limiter.TokensAt`:
the token count at time `now` — elapsed time times the refill rate is added
and the result clamped to the capacity. -/
def TokenBucket.tokensAt (b : TokenBucket) (now : ℚ) : ℚ :=
  min (b.tokens + (now - b.lastRefill) * b.refillRate) (b.capacity : ℚ)

/-- Modelled from the spec (section 4.3) and x/time/rate `Limiter.Allow`:
one admission check at time `now` — refill clamped to capacity and update
`lastRefill`; if at least 1 token is available, subtract one and admit,
otherwise deny. -/
def TokenBucket.allow (b : TokenBucket) (now : ℚ) : Bool × TokenBucket :=
  if 1 ≤ b.tokensAt now then
    (true, { capacity := b.capacity, refillRate := b.refillRate,
             tokens := b.tokensAt now - 1, lastRefill := now })
  else
    (false, { capacity := b.capacity, refillRate := b.refillRate,
              tokens := b.tokensAt now, lastRefill := now })

/-- Modelled from the spec: a bucket freshly created by
`rate.NewLimiter(rate, burst)` starts full. -/
def freshBucket (burst : Nat) (r now : ℚ) : TokenBucket :=
  { capacity := burst, refillRate := r, tokens := (burst : ℚ),
    lastRefill := now }

/-- The `RateLimiter` registry of the router sources (lines 13-18): a map
from keys to buckets plus the configured rate and burst.  Its mutex
serialises every access, so the registry operations are modelled as
sequential state transformers. -/
structure RateLimiter where
  limiters : List (String × TokenBucket)
  rate : ℚ
  burst : Nat

/-- `GetLimiter` (rate-limiter source lines 30-41): under the registry lock,
return the existing bucket for the key, creating and storing a fresh
`rate.NewLimiter(rl.rate, rl.burst)` bucket if the key is unseen. -/
def GetLimiter (rl : RateLimiter) (key : String) (now : ℚ) :
    TokenBucket × RateLimiter :=
  match rl.limiters.lookup key with
  | some limiter => (limiter, rl)
  | none =>
    let limiter := freshBucket rl.burst rl.rate now
    (limiter, { rl with limiters := (key, limiter) :: rl.limiters })

/-- One tick of `CleanupExpiredLimiters` (rate-limiter source lines 44-61):
under the lock, every entry whose bucket satisfies
`TokensAt(now) == float64(rl.burst)` is deleted. -/
def sweepRegistry (rl : RateLimiter) (now : ℚ) : RateLimiter :=
  { rl with limiters :=
      rl.limiters.filter fun kv =>
        !(decide (kv.2.tokensAt now = (rl.burst : ℚ))) }

/-- `n` consecutive admission checks on one bucket, all at time `now`. -/
def allowN : Nat → TokenBucket → ℚ → List Bool × TokenBucket
  | 0, b, _ => ([], b)
  | n + 1, b, now =>
    ((b.allow now).1 :: (allowN n (b.allow now).2 now).1,
      (allowN n (b.allow now).2 now).2)

theorem allow_immediate_le (c : Nat) (r tok t : ℚ) (h : tok ≤ (c : ℚ)) :
    TokenBucket.allow ⟨c, r, tok, t⟩ t =
      if 1 ≤ tok then (true, ⟨c, r, tok - 1, t⟩)
      else (false, ⟨c, r, tok, t⟩) := by
  unfold TokenBucket.allow TokenBucket.tokensAt
  simp only [sub_self, zero_mul, add_zero, min_eq_left h]

/-- Claim C6: a fresh key's bucket (capacity 5) admits exactly the first
five of six immediate admission checks and denies the sixth; a later check
at `t + d` is admitted exactly when `d * rate >= 1`, i.e. when at least one
token has refilled; each admission subtracts exactly one token from the
refilled count; and the refill is clamped so tokens never exceed capacity. -/
theorem bucket_capacity_five_burst (r t d : ℚ) (key : String)
    (b : TokenBucket) (now : ℚ) :
    (GetLimiter ⟨[], r, 5⟩ key t).1 = freshBucket 5 r t ∧
    (allowN 6 (freshBucket 5 r t) t).1 =
      [true, true, true, true, true, false] ∧
    (allowN 6 (freshBucket 5 r t) t).2 = ⟨5, r, 0, t⟩ ∧
    (((allowN 6 (freshBucket 5 r t) t).2.allow (t + d)).1 = true ↔
      1 ≤ d * r) ∧
    (b.allow now).2.tokens =
      (if 1 ≤ b.tokensAt now then b.tokensAt now - 1 else b.tokensAt now) ∧
    (b.allow now).2.tokens ≤ (b.capacity : ℚ) := by
  have hf : freshBucket 5 r t = ⟨5, r, 5, t⟩ := by
    unfold freshBucket
    norm_num
  have h5 : TokenBucket.allow ⟨5, r, 5, t⟩ t = (true, ⟨5, r, 4, t⟩) := by
    rw [allow_immediate_le 5 r 5 t (by norm_num)]
    norm_num
  have h4 : TokenBucket.allow ⟨5, r, 4, t⟩ t = (true, ⟨5, r, 3, t⟩) := by
    rw [allow_immediate_le 5 r 4 t (by norm_num)]
    norm_num
  have h3 : TokenBucket.allow ⟨5, r, 3, t⟩ t = (true, ⟨5, r, 2, t⟩) := by
    rw [allow_immediate_le 5 r 3 t (by norm_num)]
    norm_num
  have h2 : TokenBucket.allow ⟨5, r, 2, t⟩ t = (true, ⟨5, r, 1, t⟩) := by
    rw [allow_immediate_le 5 r 2 t (by norm_num)]
    norm_num
  have h1 : TokenBucket.allow ⟨5, r, 1, t⟩ t = (true, ⟨5, r, 0, t⟩) := by
    rw [allow_immediate_le 5 r 1 t (by norm_num)]
    norm_num
  have h0 : TokenBucket.allow ⟨5, r, 0, t⟩ t = (false, ⟨5, r, 0, t⟩) := by
    rw [allow_immediate_le 5 r 0 t (by norm_num)]
    norm_num
  have hchain : allowN 6 (freshBucket 5 r t) t =
      ([true, true, true, true, true, false], ⟨5, r, 0, t⟩) := by
    rw [hf]
    simp only [allowN, h5, h4, h3, h2, h1, h0]
  have hclamp : b.tokensAt now ≤ (b.capacity : ℚ) := by
    unfold TokenBucket.tokensAt
    exact min_le_right _ _
  refine ⟨?_, by rw [hchain], by rw [hchain], ?_, ?_, ?_⟩
  · unfold GetLimiter
    rw [List.lookup_nil]
  · rw [hchain]
    show (TokenBucket.allow ⟨5, r, 0, t⟩ (t + d)).1 = true ↔ 1 ≤ d * r
    unfold TokenBucket.allow TokenBucket.tokensAt
    dsimp only
    have harith : (0 : ℚ) + (t + d - t) * r = d * r := by ring
    rw [harith]
    by_cases hc : 1 ≤ d * r
    · rw [if_pos (le_min hc (by norm_num))]
      simp [hc]
    · rw [if_neg (fun hx => hc (le_trans hx (min_le_left _ _)))]
      simp [hc]
  · unfold TokenBucket.allow
    by_cases hc : 1 ≤ b.tokensAt now
    · rw [if_pos hc, if_pos hc]
    · rw [if_neg hc, if_neg hc]
  · unfold TokenBucket.allow
    by_cases hc : 1 ≤ b.tokensAt now
    · rw [if_pos hc]
      show b.tokensAt now - 1 ≤ (b.capacity : ℚ)
      linarith
    · rw [if_neg hc]
      exact hclamp

/-- Claim C7: on a sweep tick an entry survives iff its bucket's token count
at inspection time differs from its capacity — equivalently, it is evicted
iff the bucket has fully refilled (`TokensAt(now)` equal to the burst, which
is every registry bucket's capacity).  A fully refilled (untouched) bucket is
therefore removed and a partially drained one survives. -/
theorem sweep_evicts_iff_full (rl : RateLimiter) (now : ℚ) (k : String)
    (b : TokenBucket) (hcap : (b.capacity : ℚ) = (rl.burst : ℚ)) :
    ((k, b) ∈ (sweepRegistry rl now).limiters ↔
      (k, b) ∈ rl.limiters ∧ b.tokensAt now ≠ (b.capacity : ℚ)) := by
  unfold sweepRegistry
  rw [List.mem_filter]
  rw [hcap]
  simp

/-- A registry with one fully refilled bucket (`idle`) and one partially
drained bucket (`busy`). -/
def demoRegistry : RateLimiter :=
  { limiters := [("idle", ⟨5, 1, 5, 0⟩), ("busy", ⟨5, 1, 2, 0⟩)],
    rate := 1, burst := 5 }

/-- Witness for claim C7 on `demoRegistry` at inspection time 0: the
partially drained `busy` bucket (2 of 5 tokens) survives the sweep, by the
eviction characterisation. -/
theorem sweep_evicts_iff_full_witness :
    ("busy", (⟨5, 1, 2, 0⟩ : TokenBucket)) ∈ (sweepRegistry demoRegistry 0).limiters ↔
      ("busy", (⟨5, 1, 2, 0⟩ : TokenBucket)) ∈ demoRegistry.limiters ∧
        TokenBucket.tokensAt ⟨5, 1, 2, 0⟩ 0 ≠
          (((⟨5, 1, 2, 0⟩ : TokenBucket).capacity : Nat) : ℚ) :=
  sweep_evicts_iff_full demoRegistry 0 "busy" ⟨5, 1, 2, 0⟩ rfl

/-- The request context seen by the gin middleware chain: response status,
the keys of the JSON body written, whether the chain was aborted, and
whether the route handler ran. -/
structure GinContext where
  status : Option Nat
  bodyKeys : List String
  aborted : Bool
  handlerRan : Bool

/-- `RateLimitMiddleware` (rate-limiter source lines 64-80): fetch the
caller's bucket via `GetLimiter`, run one admission check (`Allow`); on
denial answer 429 with an `error` body and abort — the rest of the chain
(`next`) never runs; otherwise continue with the chain. -/
def RateLimitMiddleware (rl : RateLimiter) (key : String) (now : ℚ)
    (next : GinContext → GinContext) (c : GinContext) : GinContext :=
  if ((GetLimiter rl key now).1.allow now).1 = false then
    { c with status := some 429, bodyKeys := ["error"], aborted := true }
  else next c

/-- `StrictRateLimitMiddleware` (rate-limiter source lines 83-99): as
`RateLimitMiddleware`, but the 429 body additionally carries the
`retry_after` hint. -/
def StrictRateLimitMiddleware (rl : RateLimiter) (key : String) (now : ℚ)
    (next : GinContext → GinContext) (c : GinContext) : GinContext :=
  if ((GetLimiter rl key now).1.allow now).1 = false then
    { c with
      status := some 429
      bodyKeys := ["error", "retry_after"]
      aborted := true }
  else next c

/-- Modelled from the spec: the HTTP surface (spec section 6).  The route
registration wiring these middlewares onto the routes is not part of the
sources under verification; per spec sections 4.3 and 6 every route is
guarded by the general limiter and authentication-sensitive routes
additionally by the strict limiter. -/
inductive Route
  | register
  | login
  | profile
  | videoGet
  | videoUpload

/-- Modelled from the spec (section 4.3): the routes carrying the strict
policy are the authentication-sensitive ones. -/
def Route.strictPolicy : Route → Bool
  | .register => true
  | .login => true
  | _ => false

/-- Modelled from the spec: a route's middleware chain — the general
rate-limit middleware wraps the strict one (on strict-policy routes) which
wraps the route handler. -/
def serveRoute (gen strict : RateLimiter) (key : String) (now : ℚ)
    (handler : GinContext → GinContext) (r : Route) (c : GinContext) :
    GinContext :=
  RateLimitMiddleware gen key now
    (fun c2 =>
      if r.strictPolicy then
        StrictRateLimitMiddleware strict key now handler c2
      else handler c2) c

/-- Claim C8: on every route, a request denied by the general rate limiter
is answered 429 with an `error` body and the route handler never runs — the
result is the aborted 429 context, independent of the handler; on a
strict-policy route, a request passing the general limiter but denied by
the strict one is answered 429 with both `error` and the `retry_after`
hint, again without the handler running. -/
theorem rate_limited_request_rejected (r : Route) (gen strict : RateLimiter)
    (key : String) (now : ℚ) (c : GinContext)
    (handler : GinContext → GinContext) :
    (((GetLimiter gen key now).1.allow now).1 = false →
      serveRoute gen strict key now handler r c =
        { c with
          status := some 429
          bodyKeys := ["error"]
          aborted := true }) ∧
    (((GetLimiter gen key now).1.allow now).1 = true →
      ((GetLimiter strict key now).1.allow now).1 = false →
      r.strictPolicy = true →
      serveRoute gen strict key now handler r c =
        { c with
          status := some 429
          bodyKeys := ["error", "retry_after"]
          aborted := true }) := by
  constructor
  · intro hdeny
    unfold serveRoute RateLimitMiddleware
    rw [if_pos hdeny]
  · intro hallow hdeny hstrict
    unfold serveRoute RateLimitMiddleware StrictRateLimitMiddleware
    rw [if_neg (by simp [hallow])]
    dsimp only
    rw [if_pos hstrict, if_pos hdeny]

/-- A registry whose single bucket for key `ip` is empty and refills at rate
0, so every admission check for `ip` is denied. -/
def denyRegistry : RateLimiter :=
  { limiters := [("ip", ⟨5, 0, 0, 0⟩)], rate := 0, burst := 5 }

/-- A fresh empty registry: the first admission check creates a full bucket
and admits. -/
def allowRegistry : RateLimiter :=
  { limiters := [], rate := 1, burst := 5 }

/-- An initial request context. -/
def initialContext : GinContext :=
  { status := none, bodyKeys := [], aborted := false, handlerRan := false }

/-- A handler that marks the context when it runs. -/
def markingHandler (c : GinContext) : GinContext :=
  { c with handlerRan := true, status := some 200 }

/-- Witness for claim C8: on the video route a general-limiter denial yields
the aborted 429 error context, and on the strict login route a strict-limiter
denial yields the aborted 429 context with the retry-after hint; in both
cases the handler never marks the context. -/
theorem rate_limited_request_rejected_witness :
    serveRoute denyRegistry allowRegistry "ip" 0 markingHandler
        Route.videoGet initialContext =
      { initialContext with
        status := some 429
        bodyKeys := ["error"]
        aborted := true } ∧
    serveRoute allowRegistry denyRegistry "ip" 0 markingHandler
        Route.login initialContext =
      { initialContext with
        status := some 429
        bodyKeys := ["error", "retry_after"]
        aborted := true } :=
  by
  have hd : ((GetLimiter denyRegistry "ip" 0).1.allow 0).1 = false := by
    have hb : (GetLimiter denyRegistry "ip" 0).1 = ⟨5, 0, 0, 0⟩ := by
      unfold GetLimiter denyRegistry
      rw [List.lookup_cons_self]
    rw [hb, allow_immediate_le 5 0 0 0 (by norm_num)]
    norm_num
  have ha : ((GetLimiter allowRegistry "ip" 0).1.allow 0).1 = true := by
    have hb : (GetLimiter allowRegistry "ip" 0).1 = freshBucket 5 1 0 := by
      unfold GetLimiter allowRegistry
      rw [List.lookup_nil]
    have hf : freshBucket 5 1 0 = ⟨5, 1, 5, 0⟩ := by
      unfold freshBucket
      norm_num
    rw [hb, hf, allow_immediate_le 5 1 5 0 (by norm_num)]
    norm_num
  exact ⟨(rate_limited_request_rejected Route.videoGet denyRegistry
      allowRegistry "ip" 0 initialContext markingHandler).1 hd,
    (rate_limited_request_rejected Route.login allowRegistry denyRegistry
      "ip" 0 initialContext markingHandler).2 ha hd rfl⟩

theorem lookup_none_countP (key : String) (l : List (String × TokenBucket))
    (h : List.lookup key l = none) :
    l.countP (fun kv => kv.1 == key) = 0 := by
  induction l with
  | nil => rfl
  | cons kv es ih =>
    obtain ⟨k, v⟩ := kv
    rw [List.lookup_cons] at h
    rw [List.countP_cons]
    cases hbeq : key == k with
    | true =>
      rw [hbeq] at h
      exact absurd h (by simp)
    | false =>
      rw [hbeq] at h
      have hk : ((k, v).1 == key) = false := by
        simp only [beq_eq_false_iff_ne] at hbeq ⊢
        exact fun he => hbeq he.symm
      rw [ih h, hk]
      simp

/-- Claim C9: the registry mutex serialises two admission checks racing on
the same previously-unseen key into some sequential order of the two
`GetLimiter` calls; in either order (the two calls are symmetric) the first
call inserts exactly one fresh bucket, the second finds and returns that
same stored bucket without touching the registry, so exactly one bucket
instance is owned by the registry for the key and both callers observe that
same bucket. -/
theorem getLimiter_single_bucket_on_race (rl : RateLimiter) (key : String)
    (now1 now2 : ℚ) (h : rl.limiters.lookup key = none) :
    (GetLimiter (GetLimiter rl key now1).2 key now2).1 =
      (GetLimiter rl key now1).1 ∧
    (GetLimiter (GetLimiter rl key now1).2 key now2).2 =
      (GetLimiter rl key now1).2 ∧
    (GetLimiter rl key now1).2.limiters.countP (fun kv => kv.1 == key) = 1 ∧
    (GetLimiter rl key now1).2.limiters.lookup key =
      some (GetLimiter rl key now1).1 := by
  have h1 : GetLimiter rl key now1 =
      (freshBucket rl.burst rl.rate now1,
        { rl with
          limiters := (key, freshBucket rl.burst rl.rate now1) :: rl.limiters }) := by
    unfold GetLimiter
    rw [h]
  rw [h1]
  dsimp only
  refine ⟨?_, ?_, ?_, ?_⟩
  · unfold GetLimiter
    rw [List.lookup_cons_self]
  · unfold GetLimiter
    rw [List.lookup_cons_self]
  · rw [List.countP_cons, lookup_none_countP key rl.limiters h]
    simp
  · rw [List.lookup_cons_self]

/-- Witness for claim C9: on the empty registry, two successive `GetLimiter`
calls for the unseen key `ip` (at times 0 and 1) return the one bucket the
first call inserted, and the registry holds exactly one entry for `ip`. -/
theorem getLimiter_single_bucket_on_race_witness :
    (GetLimiter (GetLimiter allowRegistry "ip" 0).2 "ip" 1).1 =
      (GetLimiter allowRegistry "ip" 0).1 ∧
    (GetLimiter (GetLimiter allowRegistry "ip" 0).2 "ip" 1).2 =
      (GetLimiter allowRegistry "ip" 0).2 ∧
    (GetLimiter allowRegistry "ip" 0).2.limiters.countP
      (fun kv => kv.1 == "ip") = 1 ∧
    (GetLimiter allowRegistry "ip" 0).2.limiters.lookup "ip" =
      some (GetLimiter allowRegistry "ip" 0).1 :=
  getLimiter_single_bucket_on_race allowRegistry "ip" 0 1 rfl
